import Mathlib

set_option maxRecDepth 8000

/-!
Verification development for the multi-agent chat orchestration layer
(`src/agent_framework/*.py`, `src/foundry_agent/*.py`).

Strings are embedded as `List Char`.  Python's `str.lower` is modelled by the
ASCII case map (all keyword constants in the source are lower-case ASCII or
Korean, which both case maps leave unchanged), and Python's whitespace set by
the ASCII whitespace characters.  Python integers are unbounded, so counters
are `Nat`/`Int`.
-/

def strL (s : String) : List Char := s.data

/-- ASCII whitespace, modelling the characters stripped by Python's
`str.strip()` and split on by `str.split()`. -/
def isPySpace (c : Char) : Bool :=
  c == ' ' || c == '\t' || c == '\n' || c == '\r' || c == '\x0b' || c == '\x0c'

/-- `str.lower()` restricted to the ASCII case map. -/
def pyLower (s : List Char) : List Char := s.map Char.toLower

def dropLeadingWs (s : List Char) : List Char := s.dropWhile isPySpace

def dropTrailingWs (s : List Char) : List Char :=
  (s.reverse.dropWhile isPySpace).reverse

/-- Python `str.strip()`. -/
def pyStrip (s : List Char) : List Char := dropTrailingWs (dropLeadingWs s)

/-- `prefixB pat s` holds when `pat` is a prefix of `s`. -/
def prefixB : List Char → List Char → Bool
  | [], _ => true
  | _ :: _, [] => false
  | a :: ps, b :: ss => a == b && prefixB ps ss

/-- `subOf pat s` models Python's `pat in s` substring test. -/
def subOf (pat : List Char) : List Char → Bool
  | [] => pat.isEmpty
  | c :: rest => prefixB pat (c :: rest) || subOf pat rest

/-- The suffix of `s` that starts right after the first occurrence of `pat`,
or `none` when `pat` does not occur. -/
def afterSub (pat : List Char) : List Char → Option (List Char)
  | [] => if pat.isEmpty then some [] else none
  | c :: rest =>
    if prefixB pat (c :: rest) then some ((c :: rest).drop pat.length)
    else afterSub pat rest

/-- Contiguous slice `s[i : i+n]`. -/
def sliceL (s : List Char) (i n : Nat) : List Char := (s.drop i).take n

/-- `t` occurs contiguously inside `s`. -/
def infixOf (t s : List Char) : Prop := ∃ u v, s = u ++ t ++ v

/-- Word count as computed by Python's `len(text.split())`: the number of
maximal runs of non-whitespace characters. -/
def wordCountAux : List Char → Bool → Nat
  | [], _ => 0
  | c :: rest, inWord =>
    if isPySpace c then wordCountAux rest false
    else (if inWord then 0 else 1) + wordCountAux rest true

def wordCount (s : List Char) : Nat := wordCountAux s false

/-! ## JSON values and `json.loads`

A recursive-descent parser for the JSON grammar, modelling Python's
`json.loads` (which raises on trailing non-whitespace and on any syntax
error).  Numeric lexemes are kept verbatim: no claim depends on numeric
values.  `\uXXXX` escapes are decoded to the corresponding code point. -/

inductive Json where
  | jnull
  | jbool (b : Bool)
  | jnum (lex : List Char)
  | jstr (s : List Char)
  | jarr (es : List Json)
  | jobj (kvs : List (List Char × Json))

def isJsonWs (c : Char) : Bool :=
  c == ' ' || c == '\t' || c == '\n' || c == '\r'

def skipWs (cs : List Char) : List Char := cs.dropWhile isJsonWs

def hexVal (c : Char) : Option Nat :=
  let n := c.toNat
  if 48 ≤ n && n ≤ 57 then some (n - 48)
  else if 97 ≤ n && n ≤ 102 then some (n - 87)
  else if 65 ≤ n && n ≤ 70 then some (n - 55)
  else none

def escMap : Char → Option Char
  | '"' => some '"'
  | '\\' => some '\\'
  | '/' => some '/'
  | 'b' => some (Char.ofNat 8)
  | 'f' => some (Char.ofNat 12)
  | 'n' => some (Char.ofNat 10)
  | 'r' => some (Char.ofNat 13)
  | 't' => some (Char.ofNat 9)
  | _ => none

/-- Body of a JSON string after the opening quote; returns the decoded
characters and the remainder after the closing quote. -/
def parseStringBody : List Char → Option (List Char × List Char)
  | [] => none
  | '"' :: rest => some ([], rest)
  | '\\' :: 'u' :: h1 :: h2 :: h3 :: h4 :: rest => do
    let a ← hexVal h1
    let b ← hexVal h2
    let c ← hexVal h3
    let d ← hexVal h4
    let (s, r) ← parseStringBody rest
    some (Char.ofNat (((a * 16 + b) * 16 + c) * 16 + d) :: s, r)
  | '\\' :: e :: rest => do
    let d ← escMap e
    let (s, r) ← parseStringBody rest
    some (d :: s, r)
  | c :: rest =>
    if c.toNat < 32 then none
    else do
      let (s, r) ← parseStringBody rest
      some (c :: s, r)

def jsonDigits (cs : List Char) : List Char × List Char :=
  (cs.takeWhile Char.isDigit, cs.dropWhile Char.isDigit)

/-- Integer part of a JSON number: `0` or a nonzero digit followed by digits. -/
def parseIntPart : List Char → Option (List Char × List Char)
  | [] => none
  | '0' :: r => some (['0'], r)
  | c :: r =>
    if c.isDigit then
      let (ds, r') := jsonDigits r
      some (c :: ds, r')
    else none

def parseFracPart : List Char → List Char × List Char
  | '.' :: r =>
    let (ds, r') := jsonDigits r
    if ds.isEmpty then ([], '.' :: r) else ('.' :: ds, r')
  | cs => ([], cs)

def parseFracOk : List Char → Bool
  | '.' :: r => !(jsonDigits r).1.isEmpty
  | _ => true

def parseExpPart : List Char → Option (List Char × List Char)
  | 'e' :: '+' :: r =>
    let (ds, r') := jsonDigits r
    if ds.isEmpty then none else some ('e' :: '+' :: ds, r')
  | 'e' :: '-' :: r =>
    let (ds, r') := jsonDigits r
    if ds.isEmpty then none else some ('e' :: '-' :: ds, r')
  | 'e' :: r =>
    let (ds, r') := jsonDigits r
    if ds.isEmpty then none else some ('e' :: ds, r')
  | 'E' :: '+' :: r =>
    let (ds, r') := jsonDigits r
    if ds.isEmpty then none else some ('E' :: '+' :: ds, r')
  | 'E' :: '-' :: r =>
    let (ds, r') := jsonDigits r
    if ds.isEmpty then none else some ('E' :: '-' :: ds, r')
  | 'E' :: r =>
    let (ds, r') := jsonDigits r
    if ds.isEmpty then none else some ('E' :: ds, r')
  | cs => some ([], cs)

/-- A JSON number lexeme: `-? int frac? exp?`. -/
def parseNumber (cs : List Char) : Option (List Char × List Char) := do
  let (sign, cs1) := match cs with
    | '-' :: r => ((['-'] : List Char), r)
    | _ => (([] : List Char), cs)
  let (ip, cs2) ← parseIntPart cs1
  if parseFracOk cs2 then
    let (fp, cs3) := parseFracPart cs2
    let (ep, cs4) ← parseExpPart cs3
    some (sign ++ ip ++ fp ++ ep, cs4)
  else none

inductive JMode where
  | value
  | members
  | elems

inductive JOut where
  | v (x : Json)
  | kvs (l : List (List Char × Json))
  | es (l : List Json)

/-- One value-mode dispatch step: parse a JSON value at the head of the input
(leading whitespace already consumed), with `recM`/`recE` the continuations
for object members and array elements. -/
def jsonValueStep (recM recE : List Char → Option (JOut × List Char)) :
    List Char → Option (JOut × List Char)
  | [] => none
  | c :: rest =>
    if c == '\x7b' then
      match skipWs rest with
      | '\x7d' :: r2 => some (.v (.jobj []), r2)
      | r1 =>
        match recM r1 with
        | some (.kvs l, r2) => some (.v (.jobj l), r2)
        | _ => none
    else if c == '[' then
      match skipWs rest with
      | ']' :: r2 => some (.v (.jarr []), r2)
      | r1 =>
        match recE r1 with
        | some (.es l, r2) => some (.v (.jarr l), r2)
        | _ => none
    else if c == '"' then
      match parseStringBody rest with
      | some (s, r) => some (.v (.jstr s), r)
      | none => none
    else if prefixB (strL "true") (c :: rest) then
      some (.v (.jbool true), (c :: rest).drop 4)
    else if prefixB (strL "false") (c :: rest) then
      some (.v (.jbool false), (c :: rest).drop 5)
    else if prefixB (strL "null") (c :: rest) then
      some (.v .jnull, (c :: rest).drop 4)
    else
      match parseNumber (c :: rest) with
      | some (lex, r) => some (.v (.jnum lex), r)
      | none => none

/-- One member of an object (`"key" ws : ws value`) followed by `, members`
or the closing brace, which is consumed. -/
def jsonMembersStep (recV recM : List Char → Option (JOut × List Char)) :
    List Char → Option (JOut × List Char)
  | [] => none
  | c :: rest =>
    if c == '"' then
      match parseStringBody rest with
      | none => none
      | some (key, r1) =>
        match skipWs r1 with
        | ':' :: r3 =>
          (match recV (skipWs r3) with
           | some (.v x, r4) =>
             (match skipWs r4 with
              | ',' :: r6 =>
                (match recM (skipWs r6) with
                 | some (.kvs l, r7) => some (.kvs ((key, x) :: l), r7)
                 | _ => none)
              | '\x7d' :: r6 => some (.kvs [(key, x)], r6)
              | _ => none)
           | _ => none)
        | _ => none
    else none

/-- One array element followed by `, elems` or the closing bracket, which is
consumed. -/
def jsonElemsStep (recV recE : List Char → Option (JOut × List Char))
    (cs : List Char) : Option (JOut × List Char) :=
  match recV cs with
  | some (.v x, r1) =>
    (match skipWs r1 with
     | ',' :: r3 =>
       (match recE (skipWs r3) with
        | some (.es l, r4) => some (.es (x :: l), r4)
        | _ => none)
     | ']' :: r3 => some (.es [x], r3)
     | _ => none)
  | _ => none

/-- Fuel-indexed JSON parser.  `.value` parses one JSON value at the head of
the input (leading whitespace already consumed); `.members` parses the member
list of an object up to and including the closing brace; `.elems` parses the
element list of an array up to and including the closing bracket. -/
def jsonP : Nat → JMode → List Char → Option (JOut × List Char)
  | 0, _, _ => none
  | fuel + 1, .value, cs => jsonValueStep (jsonP fuel .members) (jsonP fuel .elems) cs
  | fuel + 1, .members, cs => jsonMembersStep (jsonP fuel .value) (jsonP fuel .members) cs
  | fuel + 1, .elems, cs => jsonElemsStep (jsonP fuel .value) (jsonP fuel .elems) cs

/-- `json.loads`: parse one JSON value, then require only whitespace after
it.  Fuel `2 * length + 2` suffices: every two nested parser calls consume at
least one input character. -/
def jsonParse (cs : List Char) : Option Json := do
  let (out, rest) ← jsonP (2 * cs.length + 2) .value (skipWs cs)
  match out with
  | .v x => if (skipWs rest).isEmpty then some x else none
  | _ => none

/-! ## `ToolAgent._parse_tool_call`

From `src/agent_framework/tool_agent.py:515-554` and
`src/foundry_agent/tool_agent.py:654-703` (the two bodies are identical).
Pass 1 parses the stripped response when it starts with `{` and ends with `}`;
pass 2 searches for the regex `\{[^}]*"tool"[^}]*"arguments"[^}]*\}`
(DOTALL), then brace-counts over the regex match.  The enclosing
`try/except` turns any `json.loads` failure (and any `in` on a scalar)
into a `None` result. -/

def toolKey : List Char := strL "tool"

def argumentsKey : List Char := strL "arguments"

def hasKey (kvs : List (List Char × Json)) (k : List Char) : Bool :=
  kvs.any (fun p => p.1 == k)

/-- Python's `'tool' in x and 'arguments' in x`: key membership on a dict,
element membership on a list, `TypeError` otherwise. -/
inductive KeyRes where
  | yes
  | no
  | err

def jarrHasStr (es : List Json) (k : List Char) : Bool :=
  es.any fun j => match j with | .jstr s => s == k | _ => false

def keysCheck : Json → KeyRes
  | .jobj kvs =>
    if hasKey kvs toolKey && hasKey kvs argumentsKey then .yes else .no
  | .jarr es =>
    if jarrHasStr es toolKey && jarrHasStr es argumentsKey then .yes else .no
  | _ => .err

/-- A substring that `json.loads` accepts as an object carrying both a
`tool` and an `arguments` key — the shape of a valid tool-call payload. -/
def toolCallOf (u : List Char) : Option Json :=
  match jsonParse u with
  | some (.jobj kvs) =>
    if hasKey kvs toolKey && hasKey kvs argumentsKey then some (.jobj kvs)
    else none
  | _ => none

inductive Pass1Out where
  | fallthrough
  | exc
  | found (tc : Json)

def headIs (s : List Char) (c : Char) : Bool := s.head? == some c

def lastIs (s : List Char) (c : Char) : Bool := s.getLast? == some c

/-- First pass: parse the whole stripped response. -/
def pass1 (resp : List Char) : Pass1Out :=
  let t := pyStrip resp
  if headIs t '\x7b' && lastIs t '\x7d' then
    match jsonParse t with
    | none => .exc
    | some v =>
      match keysCheck v with
      | .yes => .found v
      | .no => .fallthrough
      | .err => .exc
  else .fallthrough

def quotTool : List Char := strL "\"tool\""

def quotArgs : List Char := strL "\"arguments\""

/-- The segment between a `{` and the first following `}` contains `"tool"`
followed (disjointly) by `"arguments"`. -/
def hasToolArgs (seg : List Char) : Bool :=
  match afterSub quotTool seg with
  | none => false
  | some r => (afterSub quotArgs r).isSome

/-- One attempt of the regex `\{[^}]*"tool"[^}]*"arguments"[^}]*\}` anchored
at the head of the input.  `[^}]*` cannot cross a `}`, so a match necessarily
ends at the first `}` after the opening brace. -/
def tryMatchHere : List Char → Option (List Char)
  | [] => none
  | c :: rest =>
    if c == '\x7b' then
      if rest.any (fun d => d == '\x7d') then
        let seg := rest.takeWhile (fun d => !(d == '\x7d'))
        if hasToolArgs seg then some ('\x7b' :: seg ++ ['\x7d']) else none
      else none
    else none

/-- `re.search`: leftmost match of the pattern. -/
def reSearch : List Char → Option (List Char)
  | [] => none
  | c :: rest =>
    match tryMatchHere (c :: rest) with
    | some m => some m
    | none => reSearch rest

/-- Brace counting from the start of the regex match: index one past the
brace that balances the count, if any.  The count is an `Int` as in Python. -/
def braceEnd : List Char → Nat → Int → Option Nat
  | [], _, _ => none
  | c :: rest, i, cnt =>
    if c == '\x7b' then braceEnd rest (i + 1) (cnt + 1)
    else if c == '\x7d' then
      if cnt - 1 == 0 then some (i + 1) else braceEnd rest (i + 1) (cnt - 1)
    else braceEnd rest (i + 1) cnt

def braceTruncate (m : List Char) : List Char :=
  match braceEnd m 0 0 with
  | some k => m.take k
  | none => m

/-- Second pass: regex search, brace-count truncation, `json.loads`, key
check.  Every failure path returns `none` (exception caught, or the trailing
`return None`). -/
def pass2 (resp : List Char) : Option Json :=
  match reSearch resp with
  | none => none
  | some m =>
    let m' := braceTruncate m
    match jsonParse m' with
    | none => none
    | some v =>
      match keysCheck v with
      | .yes => some v
      | .no => none
      | .err => none

/-- `ToolAgent._parse_tool_call`. -/
def parseToolCall (resp : List Char) : Option Json :=
  match pass1 resp with
  | .found v => some v
  | .exc => none
  | .fallthrough => pass2 resp

def c1Input : List Char :=
  strL "\x7b\"tool\":\"x\",\"arguments\":\x7b\"a\":1\x7d\x7d trailing text"

def c1Payload : List Char :=
  strL "\x7b\"tool\":\"x\",\"arguments\":\x7b\"a\":1\x7d\x7d"

/-! ## `MCPClient.call_tool` — retry and session-recovery state machine

From `src/agent_framework/tool_agent.py:123-249` (`callToolAF`) and
`src/foundry_agent/tool_agent.py:123-229` (`callToolF`).  The transport is
abstracted at the boundary where the retry logic observes it: each call
attempt either returns a value, yields no result line, or raises one of the
exception classes the handlers distinguish; each reinitialization attempt
succeeds or fails.  Sleeps (backoff) do not affect control flow and are not
recorded. -/

inductive AttemptOutcome where
  | value (v : Nat)
  | noResult
  | timeout (id : Nat)
  | httpStatus (code : Nat) (id : Nat)
  | sessionError (id : Nat)
  | otherError (id : Nat)

structure Transport where
  attempt : Nat → AttemptOutcome
  reinitOK : Nat → Bool

inductive MCPFailure where
  | timeout (id : Nat)
  | httpStatus (code : Nat) (id : Nat)
  | sessionError (id : Nat)
  | otherError (id : Nat)

inductive CallResult where
  | value (v : Nat)
  | noResult
  | raised (e : MCPFailure)
  | exhausted (last : Option MCPFailure)

/-- One record per executed attempt: whether a reinitialization preceded it,
its outcome if one did, and the attempt's transport outcome. -/
structure AttemptRecord where
  idx : Nat
  didReinit : Bool
  reinitOutcome : Option Bool
  outcome : AttemptOutcome

def defaultRec : AttemptRecord := ⟨0, false, none, .value 0⟩

def sessionFailed (rc : AttemptRecord) : Bool :=
  match rc.outcome with
  | .sessionError _ => true
  | .httpStatus code _ => code == 400 || code == 401 || code == 403
  | _ => false

/-- Combine one attempt's dispatch with the recursive continuation:
`.inl` stops the loop with that result, `.inr e` retries. -/
def stepJoin (rc : AttemptRecord) (step : Sum CallResult MCPFailure)
    (next : MCPFailure → CallResult × List AttemptRecord) :
    CallResult × List AttemptRecord :=
  match step with
  | .inl res => (res, [rc])
  | .inr e => ((next e).1, rc :: (next e).2)

/-- Dispatch of one attempt outcome in the agent-framework variant:
`.inl` ends the loop with a result (return or raise), `.inr e` retries with
`last_error := e`.  `last` is `attempt = max_retries - 1`: timeouts and HTTP
400/401/403 reach `continue` even then (the `continue` sits outside the
backoff `if`), while a session-message exception is re-raised on the last
attempt. -/
def afStep (o : AttemptOutcome) (last : Bool) : Sum CallResult MCPFailure :=
  match o with
  | .value v => .inl (.value v)
  | .noResult => .inl .noResult
  | .timeout id => .inr (.timeout id)
  | .httpStatus code id =>
    if code == 400 || code == 401 || code == 403 then .inr (.httpStatus code id)
    else .inl (.raised (.httpStatus code id))
  | .sessionError id =>
    if last then .inl (.raised (.sessionError id)) else .inr (.sessionError id)
  | .otherError id => .inl (.raised (.otherError id))

/-- Loop of the agent-framework `call_tool`.  `remaining + a = max_retries`,
so `remaining = r + 1` with `r = 0` is the last attempt.  A retry
reinitializes only while `session_reinitialized` (`reinited`) is false, and
the flag is set only by a successful reinitialization. -/
def callToolAFAux (t : Transport) :
    Nat → Nat → Bool → Option MCPFailure → Nat → CallResult × List AttemptRecord
  | 0, _, _, lastErr, _ => (.exhausted lastErr, [])
  | r + 1, a, reinited, _, ri =>
    let doR := decide (0 < a) && !reinited
    let rs : Option Bool := if doR then some (t.reinitOK ri) else none
    let reinited' := if doR then t.reinitOK ri else reinited
    let ri' := if doR then ri + 1 else ri
    let o := t.attempt a
    let rc : AttemptRecord := ⟨a, doR, rs, o⟩
    stepJoin rc (afStep o (r == 0))
      (fun e => callToolAFAux t r (a + 1) reinited' (some e) ri')

def callToolAF (t : Transport) (maxRetries : Nat) : CallResult × List AttemptRecord :=
  callToolAFAux t maxRetries 0 false none 0

/-- Dispatch of one attempt outcome in the foundry variant.  There is no
separate `HTTPStatusError` handler: `raise_for_status` errors carry no
"session" substring and are re-raised at once.  A session-error data line is
re-raised for retry only when `attempt < max_retries - 1`; on the last
attempt the SSE scan simply ends and the call returns `None`. -/
def fStep (o : AttemptOutcome) (last : Bool) : Sum CallResult MCPFailure :=
  match o with
  | .value v => .inl (.value v)
  | .noResult => .inl .noResult
  | .timeout id => .inr (.timeout id)
  | .httpStatus code id => .inl (.raised (.httpStatus code id))
  | .sessionError id => if last then .inl .noResult else .inr (.sessionError id)
  | .otherError id => .inl (.raised (.otherError id))

/-- Loop of the foundry `call_tool`: every retry attempt (`attempt > 0`)
reinitializes unconditionally. -/
def callToolFAux (t : Transport) :
    Nat → Nat → Option MCPFailure → Nat → CallResult × List AttemptRecord
  | 0, _, lastErr, _ => (.exhausted lastErr, [])
  | r + 1, a, _, ri =>
    let doR := decide (0 < a)
    let rs : Option Bool := if doR then some (t.reinitOK ri) else none
    let ri' := if doR then ri + 1 else ri
    let o := t.attempt a
    let rc : AttemptRecord := ⟨a, doR, rs, o⟩
    stepJoin rc (fStep o (r == 0))
      (fun e => callToolFAux t r (a + 1) (some e) ri')

def callToolF (t : Transport) (maxRetries : Nat) : CallResult × List AttemptRecord :=
  callToolFAux t maxRetries 0 none 0

/-- Transport for the C2 counterexample: every call attempt fails with a
session-invalid error and every reinitialization succeeds. -/
def c2Transport : Transport := ⟨fun i => .sessionError i, fun _ => true⟩

/-! ## Router (`router_node`) — two-stage classification

From `src/agent_framework/main_agent_workflow.py:186-282`. -/

def toolKeywords : List (List Char) :=
  [strL "weather", strL "temperature", strL "temp", strL "forecast",
   strL "climate", strL "rain", strL "snow", strL "sun", strL "cloud",
   strL "wind", strL "humidity", strL "storm", strL "thunder", strL "fog",
   strL "degree", strL "celsius", strL "fahrenheit",
   strL "날씨", strL "기온", strL "온도", strL "일기예보"]

def researchKeywords : List (List Char) :=
  [strL "mcp", strL "protocol", strL "rag", strL "retrieval",
   strL "embedding", strL "vector", strL "agent", strL "orchestration",
   strL "handoff", strL "delegation",
   strL "azure", strL "foundry", strL "search", strL "index", strL "openai",
   strL "llm",
   strL "architecture", strL "pattern", strL "deployment", strL "container",
   strL "docker", strL "thread", strL "tool", strL "function",
   strL "instruction", strL "prompt",
   strL "에이전트", strL "멀티", strL "검색", strL "배포", strL "아키텍처",
   strL "지식"]

def orchestratorKeywords : List (List Char) :=
  [strL " and ", strL " also ", strL " plus ", strL " additionally ",
   strL " moreover "]

def hasAnyKeyword (kws : List (List Char)) (tl : List Char) : Bool :=
  kws.any (fun kw => subOf kw tl)

inductive Route where
  | orchestrator
  | tool
  | research
  | general
deriving DecidableEq

/-- What the router executor does with a message: forward it to a target
executor, or (in the `except` handler) yield a routing-error output. -/
inductive RouterAction where
  | routeTo (r : Route)
  | yieldRoutingError (e : List Char)
deriving DecidableEq

/-- Outcome of the single generator call of the generative stage: the
classification text, or the exception it raised. -/
def GenOutcome : Type := Except (List Char) (List Char)

/-- Stage 2 of `router_node` (lines 257-273): one generator call, then
case-insensitive label-substring matching in the order
orchestrator, tool, research, general.  A raised generator exception is
caught by the surrounding `except` and yielded as a routing error.  The
second component records that the generator was invoked. -/
def genStage (gen : GenOutcome) : RouterAction × Bool :=
  match gen with
  | .error e => (.yieldRoutingError (strL "Error in routing: " ++ e), true)
  | .ok out =>
    let intent := pyLower (pyStrip out)
    if subOf (strL "orchestrator") intent then (.routeTo .orchestrator, true)
    else if subOf (strL "tool") intent then (.routeTo .tool, true)
    else if subOf (strL "research") intent then (.routeTo .research, true)
    else (.routeTo .general, true)

/-- `router_node` (lines 186-282): keyword scan over the lower-cased text,
the two deterministic rules, then the generative fallback. -/
def routerNode (text : List Char) (gen : GenOutcome) : RouterAction × Bool :=
  let tl := pyLower text
  let hasTool := hasAnyKeyword toolKeywords tl
  let hasResearch := hasAnyKeyword researchKeywords tl
  let hasConnector := hasAnyKeyword orchestratorKeywords tl
  if hasTool && hasResearch && hasConnector then (.routeTo .orchestrator, false)
  else if hasTool && !hasResearch && decide (wordCount text < 15) then
    (.routeTo .tool, false)
  else genStage gen

/-- Definition following the spec's words (§4.1 stage 2): choose the first
label in the priority order `orchestrator > tool > research` whose text
occurs (case-insensitively) in the generator output; `general` when none
does. -/
def specLabelChoice (out : List Char) : Route :=
  let intent := pyLower (pyStrip out)
  match (([(strL "orchestrator", Route.orchestrator),
          (strL "tool", Route.tool),
          (strL "research", Route.research)]).find?
      (fun p => subOf p.1 intent)) with
  | some p => p.2
  | none => Route.general

/-! ## Orchestrator executor (`orchestrator_node`)

From `src/agent_framework/main_agent_workflow.py:384-461`.  Each branch
closure catches every exception of the wrapped agent and returns a formatted
string, so both branches always resolve to strings.  `asyncio.gather`
returns results in argument order — slot assignment, not completion order —
which the embedding records by taking completion order as an argument that
the result provably ignores. -/

inductive AgentOutcome where
  | ok (s : List Char)
  | raisedErr (e : List Char)

inductive BranchCfg where
  | notConfigured
  | configured (o : AgentOutcome)

/-- The `run_tool` closure (lines 407-417). -/
def runToolBranch : BranchCfg → List Char
  | .notConfigured => strL "⚠️ Tool Agent: MCP endpoint not configured"
  | .configured (.ok s) => strL "🔧 [Tool Agent]\n" ++ s
  | .configured (.raisedErr e) => strL "⚠️ Tool Agent error: " ++ e

/-- The `run_research` closure (lines 419-429). -/
def runResearchBranch : BranchCfg → List Char
  | .notConfigured => strL "⚠️ Research Agent: Search not configured"
  | .configured (.ok s) => s
  | .configured (.raisedErr e) => strL "⚠️ Research Agent error: " ++ e

/-- `asyncio.gather(run_tool(), run_research())`: results keep argument
order whatever the completion order is. -/
def gatherPair (toolRes researchRes : List Char) (_researchFinishedFirst : Bool) :
    List Char × List Char :=
  (toolRes, researchRes)

/-- `orchestrator_node` (lines 384-461): gather both branches, join with a
blank line, yield the combination.  The `isinstance(_, Exception)` rewraps
are unreachable because both closures already catch internally. -/
def orchestratorNode (toolB researchB : BranchCfg) (researchFinishedFirst : Bool) :
    List Char :=
  let p := gatherPair (runToolBranch toolB) (runResearchBranch researchB)
    researchFinishedFirst
  p.1 ++ strL "\n\n" ++ p.2

/-! ## `MainAgentWorkflow.run`

From `src/agent_framework/main_agent_workflow.py:521-574`.  A workflow
stream event contributes `event.output` when present and not `None`, else
`event.data`; an exception anywhere in the streaming loop is caught and
converted to an `"Error: ..."` string. -/

structure StreamEvent where
  output : Option (List Char)
  data : Option (List Char)

def extractOutput (ev : StreamEvent) : Option (List Char) :=
  match ev.output with
  | some o => some o
  | none => ev.data

/-- The outputs collected by the streaming loop: extracted values whose
stripped text is non-empty. -/
def collectOutputs (events : List StreamEvent) : List (List Char) :=
  events.filterMap fun ev =>
    match extractOutput ev with
    | some o => if (pyStrip o).isEmpty then none else some o
    | none => none

def joinNL : List (List Char) → List Char
  | [] => []
  | [s] => s
  | s :: rest => s ++ strL "\n" ++ joinNL rest

/-- `MainAgentWorkflow.run`: `exc` is the exception raised during streaming,
if any (the `except Exception` arm); otherwise the collected outputs are
joined with newlines, with a fixed fallback when none were produced. -/
def mainRun (events : List StreamEvent) (exc : Option (List Char)) : List Char :=
  match exc with
  | some e => strL "Error: " ++ e
  | none =>
    let outs := collectOutputs events
    if outs.isEmpty then strL "No response generated" else joinNL outs

/-! ## Research agent (`ResearchAgent`)

From `src/agent_framework/research_agent.py`.  The `score` field stands for
the `:.2f` rendering of the float relevance score (floating-point formatting
is abstracted to its displayed text; no claim depends on the numeric
value). -/

structure SearchResult where
  id : List Char
  title : List Char
  content : List Char
  category : List Char
  score : List Char

def natL (n : Nat) : List Char := (Nat.repr n).data

/-- `_format_search_results` (lines 221-235). -/
def formatSearchResults (results : List SearchResult) : List Char :=
  if results.isEmpty then
    strL "No relevant information found in the knowledge base."
  else strL "📚 Knowledge Base Search Results:\n\n" ++ searchResultBlocks results 1
where
  searchResultBlocks : List SearchResult → Nat → List Char
    | [], _ => []
    | r :: rest, i =>
      strL "[Source " ++ natL i ++ strL "] " ++ r.title ++ strL "\n" ++
      strL "Category: " ++ r.category ++ strL "\n" ++
      strL "Document ID: " ++ r.id ++ strL "\n" ++
      strL "Content: " ++ r.content.take 500 ++ strL "...\n" ++
      strL "(Relevance Score: " ++ r.score ++ strL ")\n\n" ++
      searchResultBlocks rest (i + 1)

/-- One entry of the citation footer (lines 256-260). -/
def citationEntry (i : Nat) (r : SearchResult) : List Char :=
  strL "**[" ++ natL i ++ strL "]** " ++ r.title ++ strL "\n" ++
  strL "   • Category: " ++ r.category ++ strL "\n" ++
  strL "   • Document ID: `" ++ r.id ++ strL "`\n" ++
  strL "   • Relevance: " ++ r.score ++ strL "\n\n"

def citationBlocks : List SearchResult → Nat → List Char
  | [], _ => []
  | r :: rest, i => citationEntry i r ++ citationBlocks rest (i + 1)

/-- `_format_response_with_citations` (lines 237-262). -/
def formatResponseWithCitations (response : List Char)
    (searchResults : List SearchResult) : List Char :=
  if searchResults.isEmpty then response
  else
    response ++ strL "\n\n" ++ List.replicate 60 '─' ++ strL "\n" ++
    strL "📚 **Sources Used:**\n\n" ++ citationBlocks searchResults 1

/-- Configuration and retrieval outcome of one `ResearchAgent.run` call:
either no search client is configured, or the knowledge-base query produced
this (possibly empty) result list (`_search_knowledge_base` returns `[]` on
search failure). -/
inductive SearchCfg where
  | noClient
  | client (results : List SearchResult)

/-- The RAG prompt built at lines 309-313. -/
def ragPrompt (results : List SearchResult) (message : List Char) : List Char :=
  formatSearchResults results ++ strL "\n\nUser Question: " ++ message ++
  strL ("\n\nPlease answer based on the search results above. IMPORTANT: " ++
    "You MUST cite sources using [Source N] format where N is the source " ++
    "number. Place citations immediately after claims.")

/-- The no-results prompt built at lines 318-322. -/
def noResultsPrompt (message : List Char) : List Char :=
  strL "No relevant information found in knowledge base.\n\nUser Question: " ++
  message ++
  strL ("\n\nPlease answer using your general knowledge and indicate that " ++
    "the information is not from the knowledge base.")

/-- `ResearchAgent.run` (lines 264-362), with the generator abstracted as a
function from the prompt it is sent to the extracted response text. -/
def researchRun (cfg : SearchCfg) (gen : List Char → List Char)
    (message : List Char) : List Char :=
  match cfg with
  | .noClient => formatResponseWithCitations (gen message) []
  | .client results =>
    let enhanced :=
      if results.isEmpty then noResultsPrompt message
      else ragPrompt results message
    formatResponseWithCitations (gen enhanced) results

/-! # Theorems -/
/-! ## Tool-call parser lemmas -/

theorem infixOf_sliceL {t s : List Char} (h : infixOf t s) :
    ∃ i, i < s.length + 1 ∧ ∃ n, n < s.length + 1 ∧ sliceL s i n = t := by
  obtain ⟨u, v, rfl⟩ := h
  refine ⟨u.length, ?_, t.length, ?_, ?_⟩
  · simp [Nat.lt_succ_iff]
  · simp [Nat.lt_succ_iff]; omega
  · simp [sliceL, List.append_assoc, List.drop_left, List.take_left]

theorem pyStrip_infixOf (s : List Char) : infixOf (pyStrip s) s := by
  refine ⟨s.takeWhile isPySpace,
    ((dropLeadingWs s).reverse.takeWhile isPySpace).reverse, ?_⟩
  have h1 : s = s.takeWhile isPySpace ++ dropLeadingWs s :=
    (List.takeWhile_append_dropWhile (p := isPySpace) (l := s)).symm
  have h3 : (dropLeadingWs s).reverse =
      (dropLeadingWs s).reverse.takeWhile isPySpace ++
        (dropLeadingWs s).reverse.dropWhile isPySpace :=
    (List.takeWhile_append_dropWhile (p := isPySpace)
      (l := (dropLeadingWs s).reverse)).symm
  have h4 := congrArg List.reverse h3
  rw [List.reverse_reverse, List.reverse_append] at h4
  have h2 : dropLeadingWs s = pyStrip s ++
      ((dropLeadingWs s).reverse.takeWhile isPySpace).reverse := h4
  rw [List.append_assoc, ← h2]
  exact h1

theorem dropWhile_close {l : List Char} (h : l.any (fun d => d == '\x7d') = true) :
    ∃ tail, l.dropWhile (fun d => !(d == '\x7d')) = '\x7d' :: tail := by
  induction l with
  | nil => simp at h
  | cons a l ih =>
    by_cases ha : a = '\x7d'
    · subst ha
      exact ⟨l, by simp [List.dropWhile]⟩
    · have ha' : (a == '\x7d') = false := by simp [ha]
      simp only [List.any_cons, ha', Bool.false_or] at h
      obtain ⟨tail, htail⟩ := ih h
      exact ⟨tail, by simp [List.dropWhile, ha', htail]⟩

theorem tryMatchHere_shape {l m : List Char} (h : tryMatchHere l = some m) :
    (∃ seg, m = '\x7b' :: seg ++ ['\x7d']) ∧ ∃ tail, l = m ++ tail := by
  match l with
  | [] => simp [tryMatchHere] at h
  | c :: rest =>
    simp only [tryMatchHere] at h
    split at h
    next hc =>
      split at h
      next hany =>
        split at h
        next hta =>
          injection h with h
          subst h
          have hc' : c = '\x7b' := eq_of_beq hc
          subst hc'
          refine ⟨⟨_, rfl⟩, ?_⟩
          obtain ⟨tail, htail⟩ := dropWhile_close hany
          refine ⟨tail, ?_⟩
          have hsplit := (List.takeWhile_append_dropWhile
            (p := fun d => !(d == '\x7d')) (l := rest)).symm
          rw [htail] at hsplit
          conv_lhs => rw [hsplit]
          simp
        next => simp at h
      next => simp at h
    next => simp at h

theorem reSearch_split {s m : List Char} (h : reSearch s = some m) :
    (∃ seg, m = '\x7b' :: seg ++ ['\x7d']) ∧ infixOf m s := by
  induction s with
  | nil => simp [reSearch] at h
  | cons c rest ih =>
    rw [reSearch] at h
    cases htry : tryMatchHere (c :: rest) with
    | some m' =>
      rw [htry] at h
      injection h with h
      subst h
      obtain ⟨hshape, tail, htail⟩ := tryMatchHere_shape htry
      exact ⟨hshape, ⟨[], tail, by simpa using htail⟩⟩
    | none =>
      rw [htry] at h
      obtain ⟨hshape, u, v, huv⟩ := ih h
      exact ⟨hshape, ⟨c :: u, v, by simp [huv]⟩⟩

theorem braceEnd_lt {l : List Char} : ∀ {i : Nat} {cnt : Int} {k : Nat},
    braceEnd l i cnt = some k → i < k := by
  induction l with
  | nil => intro i cnt k h; simp [braceEnd] at h
  | cons c rest ih =>
    intro i cnt k h
    rw [braceEnd] at h
    split at h
    · exact Nat.lt_of_succ_lt (ih h)
    · split at h
      · split at h
        · injection h with h; omega
        · exact Nat.lt_of_succ_lt (ih h)
      · exact Nat.lt_of_succ_lt (ih h)

theorem braceTruncate_head (mid : List Char) :
    ∃ mid', braceTruncate ('\x7b' :: mid) = '\x7b' :: mid' := by
  unfold braceTruncate
  cases hk : braceEnd ('\x7b' :: mid) 0 0 with
  | none => exact ⟨mid, rfl⟩
  | some k =>
    have h1 : 0 < k := braceEnd_lt hk
    obtain ⟨k', rfl⟩ : ∃ k', k = k' + 1 := ⟨k - 1, by omega⟩
    exact ⟨mid.take k', by simp [List.take_succ_cons]⟩

theorem braceTruncate_pre (m : List Char) : ∃ w, m = braceTruncate m ++ w := by
  unfold braceTruncate
  cases braceEnd m 0 0 with
  | none => exact ⟨[], by simp⟩
  | some k => exact ⟨m.drop k, (List.take_append_drop k m).symm⟩

theorem jsonValueStep_brace {recM recE : List Char → Option (JOut × List Char)}
    {r : List Char} {out : JOut} {rest : List Char}
    (h : jsonValueStep recM recE ('\x7b' :: r) = some (out, rest)) :
    ∃ kvs, out = JOut.v (Json.jobj kvs) := by
  simp only [jsonValueStep] at h
  rw [if_pos (by decide)] at h
  split at h
  · injection h with h1
    injection h1 with h2 h3
    exact ⟨[], h2.symm⟩
  · split at h
    · injection h with h1
      injection h1 with h2 h3
      exact ⟨_, h2.symm⟩
    · simp at h

theorem jsonP_value_brace {f : Nat} {r : List Char} {out : JOut} {rest : List Char}
    (h : jsonP f .value ('\x7b' :: r) = some (out, rest)) :
    ∃ kvs, out = JOut.v (Json.jobj kvs) := by
  match f with
  | 0 => simp [jsonP] at h
  | f + 1 => exact jsonValueStep_brace h

theorem jsonParse_brace {r : List Char} {v : Json}
    (h : jsonParse ('\x7b' :: r) = some v) : ∃ kvs, v = Json.jobj kvs := by
  rw [jsonParse] at h
  have hws : skipWs ('\x7b' :: r) = '\x7b' :: r := by
    simp [skipWs, List.dropWhile_cons, isJsonWs]
  rw [hws] at h
  cases hp : jsonP (2 * ('\x7b' :: r).length + 2) .value ('\x7b' :: r) with
  | none => rw [hp] at h; simp at h
  | some p =>
    rw [hp] at h
    obtain ⟨out, rest⟩ := p
    obtain ⟨kvs, rfl⟩ := jsonP_value_brace hp
    simp only [Option.pure_def, Option.bind_eq_bind, Option.some_bind] at h
    split at h
    · injection h with h1; exact ⟨kvs, h1.symm⟩
    · simp at h

theorem infixOf_of_pre {a b s : List Char} (hw : ∃ w, b = a ++ w)
    (h : infixOf b s) : infixOf a s := by
  obtain ⟨w, rfl⟩ := hw
  obtain ⟨u, v, rfl⟩ := h
  exact ⟨u, w ++ v, by simp⟩

theorem keysCheck_yes_obj {kvs : List (List Char × Json)}
    (h : keysCheck (Json.jobj kvs) = KeyRes.yes) :
    (hasKey kvs toolKey && hasKey kvs argumentsKey) = true := by
  rw [keysCheck] at h
  split at h
  · assumption
  · simp at h

theorem pass1_found {resp : List Char} {v : Json} (h : pass1 resp = Pass1Out.found v) :
    toolCallOf (pyStrip resp) = some v := by
  rw [pass1] at h
  split at h
  next hcond =>
    obtain ⟨hhead, _⟩ := Bool.and_eq_true_iff.mp hcond
    cases hj : jsonParse (pyStrip resp) with
    | none => rw [hj] at h; simp at h
    | some w =>
      rw [hj] at h
      cases hk : keysCheck w with
      | yes =>
        simp only [hk] at h
        injection h with h
        subst h
        obtain ⟨c, r, hcr⟩ : ∃ c r, pyStrip resp = c :: r := by
          cases ht : pyStrip resp with
          | nil => rw [ht] at hhead; simp [headIs] at hhead
          | cons c r => exact ⟨c, r, rfl⟩
        have hc : c = '\x7b' := by
          rw [hcr] at hhead
          simpa [headIs] using hhead
        subst hc
        rw [hcr] at hj
        obtain ⟨kvs, rfl⟩ := jsonParse_brace hj
        rw [← hcr] at hj
        rw [toolCallOf, hj]
        simp [keysCheck_yes_obj hk]
      | no => simp [hk] at h
      | err => simp [hk] at h
  next => simp at h

theorem pass2_some {resp : List Char} {v : Json} (h : pass2 resp = some v) :
    ∃ m', infixOf m' resp ∧ toolCallOf m' = some v := by
  rw [pass2] at h
  cases hr : reSearch resp with
  | none => rw [hr] at h; simp at h
  | some m =>
    rw [hr] at h
    obtain ⟨⟨seg, hm⟩, hinf⟩ := reSearch_split hr
    refine ⟨braceTruncate m, infixOf_of_pre (braceTruncate_pre m) hinf, ?_⟩
    obtain ⟨mid', hbt⟩ : ∃ mid', braceTruncate m = '\x7b' :: mid' := by
      rw [hm]; exact braceTruncate_head (seg ++ ['\x7d'])
    replace h : (match jsonParse (braceTruncate m) with
      | none => none
      | some w =>
        match keysCheck w with
        | KeyRes.yes => some w
        | KeyRes.no => none
        | KeyRes.err => none) = some v := h
    cases hj : jsonParse (braceTruncate m) with
    | none => simp [hj] at h
    | some w =>
      simp only [hj] at h
      cases hk : keysCheck w with
      | yes =>
        simp only [hk] at h
        injection h with h
        subst h
        rw [hbt] at hj
        obtain ⟨kvs, rfl⟩ := jsonParse_brace hj
        rw [← hbt] at hj
        rw [toolCallOf, hj]
        simp [keysCheck_yes_obj hk]
      | no => simp [hk] at h
      | err => simp [hk] at h

theorem parseToolCall_none_of_no_payload (s : List Char)
    (h : ∀ i, i < s.length + 1 → ∀ n, n < s.length + 1 →
      (toolCallOf (sliceL s i n)).isNone = true) :
    parseToolCall s = none := by
  have habs : ∀ t : List Char, infixOf t s → ∀ v, toolCallOf t ≠ some v := by
    intro t hinf v hv
    obtain ⟨i, hi, n, hn, hsl⟩ := infixOf_sliceL hinf
    have := h i hi n hn
    rw [hsl, hv] at this
    simp at this
  rw [parseToolCall]
  cases hp : pass1 s with
  | found v => exact absurd (pass1_found hp) (habs (pyStrip s) (pyStrip_infixOf s) v)
  | exc => rfl
  | fallthrough =>
    cases hq : pass2 s with
    | none => rfl
    | some v =>
      obtain ⟨m', hinf, htc⟩ := pass2_some hq
      exact absurd htc (habs m' hinf v)

/-- C1: for the input `{"tool":"x","arguments":{"a":1}} trailing text` the
claim says the parser returns the request `{tool: "x", arguments: {a: 1}}`.
The code does not: the regex `[^}]*` segments cannot cross a `}`, so the
match stops at the first `}`, the brace counting over that truncated match
never reaches zero, and `json.loads` then fails, giving `None` — even though
the input does contain the full well-formed payload (second conjunct). -/
theorem c1_parser_brace_balancing_eval :
    parseToolCall c1Input = none ∧
    toolCallOf c1Payload =
      some (Json.jobj
        [(strL "tool", Json.jstr (strL "x")),
         (strL "arguments", Json.jobj [(strL "a", Json.jnum (strL "1"))])]) :=
  ⟨rfl, rfl⟩

/-- C10: for every input string none of whose contiguous substrings parses
as a JSON object carrying both a `tool` and an `arguments` key, the parser
returns `none` (and, being a total function, it never raises: all
`json.loads` failures are absorbed by the `try/except`). -/
theorem c10_parser_absence (s : List Char)
    (h : ∀ i, i < s.length + 1 → ∀ n, n < s.length + 1 →
      (toolCallOf (sliceL s i n)).isNone = true) :
    parseToolCall s = none :=
  parseToolCall_none_of_no_payload s h

/-- C10 witness: the parser returns `none` on an ordinary prose sentence. -/
theorem c10_parser_absence_witness :
    parseToolCall (strL "just a normal sentence") = none :=
  c10_parser_absence (strL "just a normal sentence") (by decide)

/-! ## Infix helper lemmas -/

theorem infixOf_appL {t s w : List Char} (h : infixOf t s) : infixOf t (s ++ w) := by
  obtain ⟨u, v, rfl⟩ := h
  exact ⟨u, v ++ w, by simp⟩

theorem infixOf_appR {t s w : List Char} (h : infixOf t s) : infixOf t (w ++ s) := by
  obtain ⟨u, v, rfl⟩ := h
  exact ⟨w ++ u, v, by simp⟩

theorem infixOf_refl (t : List Char) : infixOf t t := ⟨[], [], by simp⟩

/-- Every title of a result list occurs in the citation footer built from it
(at any starting index). -/
theorem citationBlocks_title {r : SearchResult} :
    ∀ (results : List SearchResult) (i : Nat), r ∈ results →
      infixOf r.title (citationBlocks results i) := by
  intro results
  induction results with
  | nil => intro i h; simp at h
  | cons x rest ih =>
    intro i h
    rw [citationBlocks]
    rcases List.mem_cons.mp h with h | h
    · subst h
      apply infixOf_appL
      rw [citationEntry]
      apply infixOf_appL
      apply infixOf_appL
      apply infixOf_appL
      apply infixOf_appL
      apply infixOf_appL
      apply infixOf_appL
      apply infixOf_appL
      apply infixOf_appL
      apply infixOf_appL
      apply infixOf_appL
      exact infixOf_appR (infixOf_refl _)
    · exact infixOf_appR (ih (i + 1) h)

/-! ## Retry-loop lemmas -/

theorem afAux_timeout (t : Transport) (ids : Nat → Nat)
    (hto : ∀ i, t.attempt i = .timeout (ids i)) :
    ∀ (r a : Nat) (reinited : Bool) (lastErr : Option MCPFailure) (ri : Nat),
      1 ≤ r →
      (callToolAFAux t r a reinited lastErr ri).1 =
        CallResult.exhausted (some (.timeout (ids (a + r - 1)))) ∧
      (callToolAFAux t r a reinited lastErr ri).2.length = r := by
  intro r
  induction r with
  | zero => intro a _ _ _ h; omega
  | succ r ih =>
    intro a reinited lastErr ri _
    simp only [callToolAFAux, hto a, afStep, stepJoin]
    cases r with
    | zero =>
      simp [callToolAFAux]
    | succ r' =>
      have ihr := ih (a + 1)
        (if decide (0 < a) && !reinited then t.reinitOK ri else reinited)
        (some (.timeout (ids a)))
        (if decide (0 < a) && !reinited then ri + 1 else ri) (by omega)
      have harith : a + 1 + (r' + 1) - 1 = a + (r' + 1 + 1) - 1 := by omega
      rw [harith] at ihr
      simpa using ihr

theorem fAux_timeout (t : Transport) (ids : Nat → Nat)
    (hto : ∀ i, t.attempt i = .timeout (ids i)) :
    ∀ (r a : Nat) (lastErr : Option MCPFailure) (ri : Nat),
      1 ≤ r →
      (callToolFAux t r a lastErr ri).1 =
        CallResult.exhausted (some (.timeout (ids (a + r - 1)))) ∧
      (callToolFAux t r a lastErr ri).2.length = r := by
  intro r
  induction r with
  | zero => intro a _ _ h; omega
  | succ r ih =>
    intro a lastErr ri _
    simp only [callToolFAux, hto a, fStep, stepJoin]
    cases r with
    | zero =>
      simp [callToolFAux]
    | succ r' =>
      have ihr := ih (a + 1) (some (.timeout (ids a)))
        (if decide (0 < a) then ri + 1 else ri) (by omega)
      have harith : a + 1 + (r' + 1) - 1 = a + (r' + 1 + 1) - 1 := by omega
      rw [harith] at ihr
      simpa using ihr

/-- Reinitialization pattern of the agent-framework loop: the attempt at
position `k` is preceded by a reinitialization exactly when its index is
positive, the flag was not already set on entry, and no earlier recorded
reinitialization in this call succeeded. -/
theorem afAux_didReinit (t : Transport) :
    ∀ (r a : Nat) (reinited : Bool) (lastErr : Option MCPFailure) (ri : Nat)
      (k : Nat),
      k < (callToolAFAux t r a reinited lastErr ri).2.length →
      ((callToolAFAux t r a reinited lastErr ri).2.getD k defaultRec).didReinit =
        (decide (0 < a + k) && !(reinited ||
          (((callToolAFAux t r a reinited lastErr ri).2.take k).any
            fun rc => rc.reinitOutcome == some true))) := by
  intro r
  induction r with
  | zero => intro a reinited lastErr ri k hk; simp [callToolAFAux] at hk
  | succ r ih =>
    intro a reinited lastErr ri k hk
    simp only [callToolAFAux] at hk ⊢
    cases hstep : afStep (t.attempt a) (r == 0) with
    | inl res =>
      rw [hstep] at hk
      simp only [stepJoin] at hk ⊢
      simp only [List.length_cons, List.length_nil] at hk
      interval_cases k
      simp
    | inr e =>
      rw [hstep] at hk
      simp only [stepJoin] at hk ⊢
      cases k with
      | zero => simp
      | succ k =>
        simp only [List.length_cons, Nat.succ_lt_succ_iff] at hk
        simp only [List.getD_cons_succ, List.take_succ_cons, List.any_cons]
        have ihr := ih (a + 1)
          (if decide (0 < a) && !reinited then t.reinitOK ri else reinited)
          (some e)
          (if decide (0 < a) && !reinited then ri + 1 else ri) k hk
        rw [ihr]
        have h1 : decide (0 < a + 1 + k) = true := by simp
        have h2 : decide (0 < a + (k + 1)) = true := by simp
        rw [h1, h2]
        simp only [Bool.true_and]
        congr 1
        cases hre : reinited with
        | true => simp [hre]
        | false =>
          cases ha : decide (0 < a) with
          | false => simp [ha]
          | true => simp [ha, Bool.or_assoc]

/-- Reinitialization pattern of the foundry loop: every attempt with a
positive index is preceded by a reinitialization. -/
theorem fAux_didReinit (t : Transport) :
    ∀ (r a : Nat) (lastErr : Option MCPFailure) (ri : Nat) (k : Nat),
      k < (callToolFAux t r a lastErr ri).2.length →
      ((callToolFAux t r a lastErr ri).2.getD k defaultRec).didReinit =
        decide (0 < a + k) := by
  intro r
  induction r with
  | zero => intro a lastErr ri k hk; simp [callToolFAux] at hk
  | succ r ih =>
    intro a lastErr ri k hk
    simp only [callToolFAux] at hk ⊢
    cases hstep : fStep (t.attempt a) (r == 0) with
    | inl res =>
      rw [hstep] at hk
      simp only [stepJoin] at hk ⊢
      simp only [List.length_cons, List.length_nil] at hk
      interval_cases k
      simp
    | inr e =>
      rw [hstep] at hk
      simp only [stepJoin] at hk ⊢
      cases k with
      | zero => simp
      | succ k =>
        simp only [List.length_cons, Nat.succ_lt_succ_iff] at hk
        simp only [List.getD_cons_succ]
        have ihr := ih (a + 1) (some e)
          (if decide (0 < a) then ri + 1 else ri) k hk
        rw [ihr]
        have h1 : decide (0 < a + 1 + k) = true := by simp
        have h2 : decide (0 < a + (k + 1)) = true := by simp
        rw [h1, h2]

/-! ## Claim theorems -/

/-- C2, counterexample: with a transport whose every call attempt fails
session-invalid and whose reinitializations all succeed, at `max_retries = 3`
the agent-framework `call_tool` executes attempt 1 (which fails
session-invalid) and then attempt 2 — but performs no reinitialization
before attempt 2, because `session_reinitialized` was already set by the
successful reinitialization before attempt 1.  This falsifies the claim as
stated. -/
theorem c2_session_reinit_counterexample :
    sessionFailed ((callToolAF c2Transport 3).2.getD 1 defaultRec) = true ∧
    (callToolAF c2Transport 3).2.length = 3 ∧
    ((callToolAF c2Transport 3).2.getD 2 defaultRec).didReinit = false :=
  ⟨rfl, rfl, rfl⟩

/-- C2, amended: before a retry attempt (index `k ≥ 1`), the
agent-framework variant reinitializes the session exactly when no
reinitialization recorded earlier in the same call succeeded; the foundry
variant reinitializes before every retry attempt unconditionally. -/
theorem c2_session_reinit_amended (t : Transport) (maxRetries : Nat) :
    (∀ k, k < (callToolAF t maxRetries).2.length →
      ((callToolAF t maxRetries).2.getD k defaultRec).didReinit =
        (decide (0 < k) && !(((callToolAF t maxRetries).2.take k).any
          fun rc => rc.reinitOutcome == some true))) ∧
    (∀ k, k < (callToolF t maxRetries).2.length →
      ((callToolF t maxRetries).2.getD k defaultRec).didReinit =
        decide (0 < k)) := by
  constructor
  · intro k hk
    have h := afAux_didReinit t maxRetries 0 false none 0 k hk
    rw [Nat.zero_add] at h
    simpa [callToolAF] using h
  · intro k hk
    have h := fAux_didReinit t maxRetries 0 none 0 k hk
    rw [Nat.zero_add] at h
    exact h

/-- C2 witness for the amended claim, instantiated at the counterexample
transport with `max_retries = 3` and retry attempt `k = 1`. -/
theorem c2_session_reinit_amended_witness :
    ((callToolAF c2Transport 3).2.getD 1 defaultRec).didReinit =
      (decide (0 < 1) && !(((callToolAF c2Transport 3).2.take 1).any
        fun rc => rc.reinitOutcome == some true)) ∧
    ((callToolF c2Transport 3).2.getD 1 defaultRec).didReinit =
      decide (0 < 1) :=
  ⟨(c2_session_reinit_amended c2Transport 3).1 1 (by decide),
   (c2_session_reinit_amended c2Transport 3).2 1 (by decide)⟩

/-- C3: if every call attempt fails with a transient transport error
(timeout), both `call_tool` variants execute exactly `max_retries` attempts
and then raise a terminal failure carrying the last observed error. -/
theorem c3_retry_bound (t : Transport) (ids : Nat → Nat) (maxRetries : Nat)
    (hto : ∀ i, t.attempt i = .timeout (ids i)) (hpos : 1 ≤ maxRetries) :
    ((callToolAF t maxRetries).1 =
        CallResult.exhausted (some (.timeout (ids (maxRetries - 1)))) ∧
      (callToolAF t maxRetries).2.length = maxRetries) ∧
    ((callToolF t maxRetries).1 =
        CallResult.exhausted (some (.timeout (ids (maxRetries - 1)))) ∧
      (callToolF t maxRetries).2.length = maxRetries) := by
  have h1 := afAux_timeout t ids hto maxRetries 0 false none 0 hpos
  have h2 := fAux_timeout t ids hto maxRetries 0 none 0 hpos
  rw [Nat.zero_add] at h1 h2
  exact ⟨h1, h2⟩

/-- C3 witness: an always-timing-out transport at the default
`max_retries = 3`. -/
theorem c3_retry_bound_witness :
    ((callToolAF ⟨fun i => .timeout i, fun _ => true⟩ 3).1 =
        CallResult.exhausted (some (.timeout 2)) ∧
      (callToolAF ⟨fun i => .timeout i, fun _ => true⟩ 3).2.length = 3) ∧
    ((callToolF ⟨fun i => .timeout i, fun _ => true⟩ 3).1 =
        CallResult.exhausted (some (.timeout 2)) ∧
      (callToolF ⟨fun i => .timeout i, fun _ => true⟩ 3).2.length = 3) :=
  c3_retry_bound ⟨fun i => .timeout i, fun _ => true⟩ (fun i => i) 3
    (fun _ => rfl) (by decide)

/-- C4: when the Tool branch raises and the Research branch succeeds, the
orchestrator node yields (never raises) the formatted tool error, a blank
line, then the research answer — in that fixed order, for either completion
order. -/
theorem c4_orchestrator_order_isolation (e ans : List Char) (order : Bool) :
    orchestratorNode (.configured (.raisedErr e)) (.configured (.ok ans)) order =
      strL "⚠️ Tool Agent error: " ++ e ++ strL "\n\n" ++ ans := rfl

/-- C5: a message whose lower-cased text contains a tool keyword, a research
keyword and a connector phrase is routed to the orchestrator by the
deterministic rule stage, for every generator behavior and without invoking
the generator (second component `false`). -/
theorem c5_rule_stage_orchestrator (text : List Char) (gen : GenOutcome)
    (h1 : hasAnyKeyword toolKeywords (pyLower text) = true)
    (h2 : hasAnyKeyword researchKeywords (pyLower text) = true)
    (h3 : hasAnyKeyword orchestratorKeywords (pyLower text) = true) :
    routerNode text gen = (.routeTo .orchestrator, false) := by
  simp [routerNode, h1, h2, h3]

/-- C5 witness: `"weather and rag"` contains `weather`, `rag` and ` and `. -/
theorem c5_rule_stage_orchestrator_witness :
    routerNode (strL "weather and rag") (Except.ok (strL "general")) =
      (.routeTo .orchestrator, false) :=
  c5_rule_stage_orchestrator _ _ (by decide) (by decide) (by decide)

/-- C6: a message with a tool keyword, no research keyword, and word count at
least 15 is not short-circuited to Tool: the router's result is exactly the
generative stage's result. -/
theorem c6_wordcount_guard (text : List Char) (gen : GenOutcome)
    (h1 : hasAnyKeyword toolKeywords (pyLower text) = true)
    (h2 : hasAnyKeyword researchKeywords (pyLower text) = false)
    (h3 : 15 ≤ wordCount text) :
    routerNode text gen = genStage gen := by
  have h4 : ¬ (wordCount text < 15) := by omega
  simp [routerNode, h1, h2, h4]

/-- C6 witness: fifteen repetitions of `weather`. -/
theorem c6_wordcount_guard_witness :
    routerNode
      (strL ("weather weather weather weather weather weather weather " ++
        "weather weather weather weather weather weather weather weather"))
      (Except.ok (strL "tool")) =
      genStage (Except.ok (strL "tool")) :=
  c6_wordcount_guard _ _ (by decide) (by decide) (by decide)

/-- C7: for every generator output, the generative stage routes to the first
label (priority orchestrator, tool, research) whose text occurs
case-insensitively in the output, and to General when none does; it always
produces a route — an unrecognized label never yields an error. -/
theorem c7_label_priority (out : List Char) :
    genStage (Except.ok out) = (.routeTo (specLabelChoice out), true) := by
  rw [genStage, specLabelChoice]
  cases ho : subOf (strL "orchestrator") (pyLower (pyStrip out)) <;>
  cases ht : subOf (strL "tool") (pyLower (pyStrip out)) <;>
  cases hr : subOf (strL "research") (pyLower (pyStrip out)) <;>
  simp [ho, ht, hr, List.find?]

/-- C8: `MainAgentWorkflow.run` is total — it always returns a string: an
exception raised anywhere during streaming is converted to an
`"Error: ..."` string, and otherwise the result is the newline-join of the
collected outputs or the fixed no-response fallback. -/
theorem c8_run_total (events : List StreamEvent) (e : List Char) :
    mainRun events (some e) = strL "Error: " ++ e ∧
    (mainRun events none = strL "No response generated" ∨
     mainRun events none = joinNL (collectOutputs events)) := by
  refine ⟨rfl, ?_⟩
  cases he : (collectOutputs events).isEmpty with
  | true => exact Or.inl (by simp [mainRun, he])
  | false => exact Or.inr (by simp [mainRun, he])

/-- C9: for every non-empty retrieval result list, the research agent's
final response contains the title of every retrieved source (the
deterministic citation footer guarantees it whatever the generator
returns). -/
theorem c9_citation_footer (results : List SearchResult)
    (gen : List Char → List Char) (message : List Char) (r : SearchResult)
    (hne : results ≠ []) (hmem : r ∈ results) :
    infixOf r.title (researchRun (.client results) gen message) := by
  have hne' : results.isEmpty = false := by
    cases results with
    | nil => exact absurd rfl hne
    | cons a l => rfl
  show infixOf r.title (formatResponseWithCitations _ results)
  rw [formatResponseWithCitations, if_neg (by simp [hne'])]
  exact infixOf_appR (citationBlocks_title results 1 hmem)

/-- C9 witness: a single retrieved source whose title appears in the final
response even though the generator output contains no citation. -/
theorem c9_citation_footer_witness :
    infixOf (strL "Title One")
      (researchRun
        (.client [⟨strL "doc1", strL "Title One", strL "content text",
          strL "general", strL "1.00"⟩])
        (fun _ => strL "generated answer") (strL "what is rag")) :=
  c9_citation_footer _ _ _ ⟨strL "doc1", strL "Title One", strL "content text",
    strL "general", strL "1.00"⟩ (by simp) (by simp)
